import Mathlib

/-!
Verification of the `extobj` crate core (`src/lib.rs`, `src/obj.rs`,
`src/ty_store.rs`) against its specification.

The Rust code manages raw heap boxes (`Box::into_raw` / `Box::from_raw`)
behind type-erased `usize` addresses.  We embed it shallowly over an
explicit heap: a map from addresses to payloads together with a
fresh-allocation counter (`Box::into_raw` always yields a fresh address).
Payloads are modelled as `Nat` (the bit pattern of the boxed value: `0`
for `i32` zero, `0`/`1` for `false`/`true`, and so on); what matters for
the claims is identity of payloads, not their internal structure.
Side effects that the claims observe (constructor calls, destructor calls,
dropped values) are returned as explicit traces.
-/

set_option autoImplicit false

namespace Extobj

/-- The heap backing `Box::into_raw` / `Box::from_raw`: a partial map from
addresses to payloads plus the next fresh address.  Rust's allocator never
hands out a live address twice; we model this with the counter `next`. -/
structure Heap where
  mem : Nat → Option Nat
  next : Nat

/-- The empty heap. -/
def Heap.empty : Heap :=
  ⟨fun _ => none, 0⟩

/-- `Box::into_raw(Box::new v)`: place `v` at a fresh address. -/
def Heap.alloc (h : Heap) (v : Nat) : Nat × Heap :=
  (h.next, ⟨fun a => if a = h.next then some v else h.mem a, h.next + 1⟩)

/-- Reading the value behind an address (`&*(ptr as *const T)`). -/
def Heap.read (h : Heap) (a : Nat) : Option Nat :=
  h.mem a

/-- Overwriting the value behind an address (`*(ptr as *mut T) = v`). -/
def Heap.write (h : Heap) (a : Nat) (v : Nat) : Heap :=
  ⟨fun x => if x = a then some v else h.mem x, h.next⟩

/-- `drop(Box::from_raw(ptr))`: the allocation is released. -/
def Heap.free (h : Heap) (a : Nat) : Heap :=
  ⟨fun x => if x = a then none else h.mem x, h.next⟩

/-!
## The schema registry (`lib.rs`)

Every entry of a registry (`Defs = RwLock<Vec<(&dyn Fn() -> usize, &dyn Fn(usize))>>`)
is pushed by `Var::<O, T>::__new`, which always pushes exactly the pair
`(&init_default::<T>, &dropper::<T>)`.  Both functions are fully determined
by the slot type `T`, so a registry entry is faithfully represented by the
slot type itself.  A slot type `T` contributes two things: its identity and
the payload of `T::default()`.
-/

/-- A slot type `T`: its identity and the payload of `T::default()`.
One registry entry `(&init_default::<T>, &dropper::<T>)` is determined by
such a `Ty`. -/
structure Ty where
  id : Nat
  defaultVal : Nat
deriving DecidableEq, Repr

/-- The registry of one schema: the `Vec` inside `Defs`, in push order. -/
abbrev Defs := List Ty

/-- `init_default::<T>`: `Box::into_raw(Box::new(T::default())) as usize`. -/
def init_default (t : Ty) (h : Heap) : Nat × Heap :=
  h.alloc t.defaultVal

/-- `dropper::<T>`: `Box::from_raw(ptr as *mut T)` is dropped. -/
def dropper (_t : Ty) (p : Nat) (h : Heap) : Heap :=
  h.free p

/-- A field handle `Var<O, T>`: the captured slot index, plus the slot type
(`T` is a phantom parameter in the source; carrying it here lets theorems
speak about the type a handle was registered with). -/
structure Var where
  index : Nat
  ty : Ty
deriving DecidableEq, Repr

/-- `Var::__new`: captures `defs.len()` as the handle index, then pushes the
`(ctor, dtor)` entry for `T`.  Returns the grown registry and the handle. -/
def Var.__new (defs : Defs) (t : Ty) : Defs × Var :=
  let index := defs.length
  (defs ++ [t], ⟨index, t⟩)

/-- A sequence of later registrations applied to a registry (other crates
registering further fields on the same schema). -/
def registerAll (defs : Defs) : List Ty → Defs
  | [] => defs
  | t :: ts => registerAll (Var.__new defs t).1 ts

/-!
## Record instances (`ExtObj<O>`)
-/

/-- `ExtObj::new`: `defs.iter().map(|(a, _)| a()).collect()` — walk the
registry in order invoking every constructor.  Returns (slot addresses in
collection order, heap after, trace of constructor invocations: which slot
type's `init_default` ran, in invocation order). -/
def newSlots : Defs → Heap → List Nat × Heap × List Ty
  | [], h => ([], h, [])
  | t :: ts, h =>
    let p := init_default t h
    let r := newSlots ts p.2
    (p.1 :: r.1, r.2.1, t :: r.2.2)

/-- `ExtObj::get`: `&*(*self.0.get_unchecked(var.0) as *const T)`.  The
source indexes unchecked; we read through an `Option` so that the model is
total, and claims carry the in-bounds precondition the source assumes. -/
def ExtObj.get (h : Heap) (slots : List Nat) (v : Var) : Option Nat :=
  (slots[v.index]?).bind h.read

/-- Writing through `ExtObj::get_mut`: `*(&mut *(ptr as *mut T)) = x`. -/
def ExtObj.set (h : Heap) (slots : List Nat) (v : Var) (x : Nat) : Heap :=
  match slots[v.index]? with
  | some a => h.write a x
  | none => h

/-- `impl Drop for ExtObj`:
`self.0.iter().zip(defs.iter()).for_each(|(a, b)| (b.1)(*a))`.
Returns the trace of destructor invocations (which slot type's `dropper`
ran, on which address, in invocation order) and the final heap. -/
def dropExtObj : List Nat → Defs → Heap → List (Ty × Nat) × Heap
  | a :: rest, t :: ts, h =>
    let r := dropExtObj rest ts (dropper t a h)
    ((t, a) :: r.1, r.2)
  | _, _, h => ([], h)

/-!
## The erased cell (`obj.rs`)
-/

/-- `ObjInner { dropper: Option<Box<dyn FnOnce(usize)>>, ptr: usize }`.
The boxed closure, when present, frees `ptr` as the creation type, so its
presence is faithfully a Boolean (`armed`). -/
structure ObjInner where
  armed : Bool
  ptr : Nat
deriving DecidableEq, Repr

/-- `ObjInner::new`: box the value, arm the dropper. -/
def ObjInner.new (v : Nat) (h : Heap) : ObjInner × Heap :=
  (⟨true, (h.alloc v).1⟩, (h.alloc v).2)

/-- `ObjInner::get_unchecked`: `&*(self.ptr as *const T)`. -/
def ObjInner.get_unchecked (o : ObjInner) (h : Heap) : Option Nat :=
  h.read o.ptr

/-- `ObjInner::get_unchecked_mut`: `&mut *(self.ptr as *mut T)` (the value
the returned reference points at). -/
def ObjInner.get_unchecked_mut (o : ObjInner) (h : Heap) : Option Nat :=
  h.read o.ptr

/-- `self.dropper = None`: the cell's own destructor is disarmed. -/
def ObjInner.disarm (o : ObjInner) : ObjInner :=
  ⟨false, o.ptr⟩

/-- `ObjInner::into_inner_unchecked`: disarm the dropper, then
`*Box::from_raw(self.ptr as *mut T)` moves the value out (the allocation is
released).  Returns the value, the consumed cell in the state its implicit
`Drop` will see, and the heap. -/
def ObjInner.into_inner_unchecked (o : ObjInner) (h : Heap) :
    Option Nat × ObjInner × Heap :=
  (h.read o.ptr, o.disarm, h.free o.ptr)

/-- `impl Drop for ObjInner`: `if let Some(dropper) = self.dropper.take()
{ dropper(self.ptr) }`.  Returns the addresses the destructor freed (the
observable destructor side effect) and the heap. -/
def ObjInner.dropIt (o : ObjInner) (h : Heap) : List Nat × Heap :=
  if o.armed then ([o.ptr], h.free o.ptr) else ([], h)

/-- `Obj { inner: ObjInner, tid: TypeId }`: the checked erased cell.
Type identities (`std::any::TypeId`) are modelled as `Nat`. -/
structure Obj where
  inner : ObjInner
  tid : Nat
deriving DecidableEq, Repr

/-- `Obj::new::<T>`: box the value and record `TypeId::of::<T>()`. -/
def Obj.new (t : Nat) (v : Nat) (h : Heap) : Obj × Heap :=
  (⟨(ObjInner.new v h).1, t⟩, (ObjInner.new v h).2)

/-- `Obj::try_get::<U>`: compare `TypeId::of::<U>()` with the stored tag;
read through the erased pointer only on a match. -/
def Obj.try_get (u : Nat) (o : Obj) (h : Heap) : Option Nat :=
  if u = o.tid then o.inner.get_unchecked h else none

/-- `Obj::try_get_mut::<U>`: same guard, mutable access path. -/
def Obj.try_get_mut (u : Nat) (o : Obj) (h : Heap) : Option Nat :=
  if u = o.tid then o.inner.get_unchecked_mut h else none

/-- `Obj::try_into_inner::<U>` (`Result<T, Self>`): on a tag match, move the
value out; otherwise return the untouched cell as the error. -/
def Obj.try_into_inner (u : Nat) (o : Obj) (h : Heap) :
    Except Obj (Option Nat) × Heap :=
  if u = o.tid then
    (Except.ok (o.inner.into_inner_unchecked h).1,
      (o.inner.into_inner_unchecked h).2.2)
  else
    (Except.error o, h)

/-!
## The type-indexed store (`ty_store.rs`)

`TyStore(FxHashMap<TypeId, ObjInner>)`.  A hash map keyed by `TypeId` is
modelled extensionally as a function `Nat → Option ObjInner` (the spec
guarantees no entry ordering, so nothing is lost).
-/

/-- `TyStore`: at most one erased cell per type identity. -/
structure TyStore where
  store : Nat → Option ObjInner

/-- `TyStore::new`. -/
def TyStore.new : TyStore :=
  ⟨fun _ => none⟩

/-- Pointwise map update (`HashMap` insert / remove of one key). -/
def TyStore.update (s : TyStore) (t : Nat) (v : Option ObjInner) : TyStore :=
  ⟨fun u => if u = t then v else s.store u⟩

/-- `TyStore::clear`: drops every entry. -/
def TyStore.clear (_s : TyStore) : TyStore :=
  ⟨fun _ => none⟩

/-- `TyStore::get::<T>`: `self.0.get(&id).map(|o| o.get_unchecked())`. -/
def TyStore.get (t : Nat) (s : TyStore) (h : Heap) : Option Nat :=
  (s.store t).bind fun o => o.get_unchecked h

/-- `TyStore::get_mut::<T>`. -/
def TyStore.get_mut (t : Nat) (s : TyStore) (h : Heap) : Option Nat :=
  (s.store t).bind fun o => o.get_unchecked_mut h

/-- `TyStore::get_mut_or_init::<T>`:
`self.0.entry(id).or_insert_with(|| ObjInner::new(init()))`.  The last
component counts how many times `init` was invoked. -/
def TyStore.get_mut_or_init (t : Nat) (init : Unit → Nat) (s : TyStore)
    (h : Heap) : Option Nat × TyStore × Heap × Nat :=
  match s.store t with
  | some o => (o.get_unchecked_mut h, s, h, 0)
  | none =>
    let r := ObjInner.new (init ()) h
    (r.1.get_unchecked_mut r.2, s.update t (some r.1), r.2, 1)

/-- `TyStore::insert::<T>`: occupied entries are kept (`o.into_mut()`,
flag `false`); vacant entries receive a fresh cell (flag `true`).  The last
component lists the values of type `T` dropped during the call — when the
entry already exists the supplied `val` goes out of scope unused. -/
def TyStore.insert (t : Nat) (v : Nat) (s : TyStore) (h : Heap) :
    (Option Nat × Bool) × TyStore × Heap × List Nat :=
  match s.store t with
  | some o => ((o.get_unchecked_mut h, false), s, h, [v])
  | none =>
    let r := ObjInner.new v h
    ((r.1.get_unchecked_mut r.2, true), s.update t (some r.1), r.2, [])

/-- `TyStore::take::<T>`:
`self.0.remove(&id).map(|v| v.into_inner_unchecked())`. -/
def TyStore.take (t : Nat) (s : TyStore) (h : Heap) :
    Option Nat × TyStore × Heap :=
  match s.store t with
  | some o =>
    ((o.into_inner_unchecked h).1, s.update t none, (o.into_inner_unchecked h).2.2)
  | none => (none, s, h)

end Extobj

/-!
## Helper lemmas
-/

namespace Extobj

@[simp] theorem Heap.read_write_self (h : Heap) (a : Nat) (v : Nat) :
    (h.write a v).read a = some v := by
  simp [Heap.read, Heap.write]

theorem Heap.read_write_ne (h : Heap) (a b : Nat) (v : Nat) (hne : b ≠ a) :
    (h.write a v).read b = h.read b := by
  simp [Heap.read, Heap.write, hne]

@[simp] theorem Heap.alloc_next (h : Heap) (v : Nat) :
    ((h.alloc v).2).next = h.next + 1 := rfl

@[simp] theorem Heap.alloc_fst (h : Heap) (v : Nat) :
    (h.alloc v).1 = h.next := rfl

@[simp] theorem Heap.read_alloc_self (h : Heap) (v : Nat) :
    ((h.alloc v).2).read h.next = some v := by
  simp [Heap.read, Heap.alloc]

theorem Heap.read_alloc_ne (h : Heap) (v : Nat) (a : Nat) (hne : a ≠ h.next) :
    ((h.alloc v).2).read a = h.read a := by
  simp [Heap.read, Heap.alloc, hne]

theorem newSlots_next (defs : Defs) (h : Heap) :
    ((newSlots defs h).2.1).next = h.next + defs.length := by
  induction defs generalizing h with
  | nil => simp [newSlots]
  | cons t ts ih =>
    simp only [newSlots, ih, init_default, Heap.alloc_next, List.length_cons]
    omega

theorem newSlots_length (defs : Defs) (h : Heap) :
    ((newSlots defs h).1).length = defs.length := by
  induction defs generalizing h with
  | nil => simp [newSlots]
  | cons t ts ih => simp only [newSlots, List.length_cons, ih]

theorem newSlots_trace (defs : Defs) (h : Heap) :
    (newSlots defs h).2.2 = defs := by
  induction defs generalizing h with
  | nil => simp [newSlots]
  | cons t ts ih => simp only [newSlots, ih]

theorem newSlots_slot_range (defs : Defs) (h : Heap) :
    ∀ a ∈ (newSlots defs h).1, h.next ≤ a ∧ a < h.next + defs.length := by
  induction defs generalizing h with
  | nil => simp [newSlots]
  | cons t ts ih =>
    intro a ha
    simp only [newSlots, List.mem_cons, init_default, Heap.alloc_fst] at ha
    rcases ha with rfl | ha
    · simp only [List.length_cons]
      omega
    · have := ih ((init_default t h).2) a ha
      simp only [init_default, Heap.alloc_next] at this
      simp only [List.length_cons]
      omega

theorem newSlots_read_lt (defs : Defs) (h : Heap) (a : Nat) (ha : a < h.next) :
    ((newSlots defs h).2.1).read a = h.read a := by
  induction defs generalizing h with
  | nil => simp [newSlots]
  | cons t ts ih =>
    simp only [newSlots]
    rw [ih ((init_default t h).2) (by simp only [init_default, Heap.alloc_next]; omega)]
    exact Heap.read_alloc_ne h _ a (by omega)

theorem newSlots_read_at (defs : Defs) (h : Heap) :
    ∀ (i : Nat) (a : Nat) (d : Ty), (newSlots defs h).1[i]? = some a →
      defs[i]? = some d →
      ((newSlots defs h).2.1).read a = some d.defaultVal := by
  induction defs generalizing h with
  | nil => intro i a d _ hd; simp at hd
  | cons t ts ih =>
    intro i a d hslot hdef
    cases i with
    | zero =>
      simp only [newSlots, List.getElem?_cons_zero, Option.some.injEq,
        init_default, Heap.alloc_fst] at hslot hdef
      subst hslot
      subst hdef
      simp only [newSlots]
      rw [newSlots_read_lt ts ((init_default t h).2) _
        (by simp only [init_default, Heap.alloc_next]; omega)]
      simp only [init_default, Heap.read_alloc_self]
    | succ i =>
      simp only [newSlots, List.getElem?_cons_succ] at hslot hdef
      simp only [newSlots]
      exact ih ((init_default t h).2) i a d hslot hdef

end Extobj

/-!
## Claim theorems
-/

namespace Extobj

theorem registerAll_getElem? (defs : Defs) (ts : List Ty) (i : Nat) (d : Ty)
    (hd : defs[i]? = some d) : (registerAll defs ts)[i]? = some d := by
  induction ts generalizing defs with
  | nil => simpa [registerAll] using hd
  | cons t ts ih =>
    simp only [registerAll]
    apply ih
    have hi : i < defs.length := by
      rcases List.getElem?_eq_some.mp hd with ⟨hlt, _⟩
      exact hlt
    show (defs ++ [t])[i]? = some d
    rw [List.getElem?_append, if_pos hi]
    exact hd

theorem registerAll_length_le (defs : Defs) (ts : List Ty) :
    defs.length ≤ (registerAll defs ts).length := by
  induction ts generalizing defs with
  | nil => simp [registerAll]
  | cons t ts ih =>
    simp only [registerAll]
    calc defs.length ≤ (Var.__new defs t).1.length := by
          simp [Var.__new]
      _ ≤ _ := ih _

theorem newSlots_slot_addr (defs : Defs) (h : Heap) :
    ∀ i : Nat, i < defs.length → (newSlots defs h).1[i]? = some (h.next + i) := by
  induction defs generalizing h with
  | nil => intro i hi; simp at hi
  | cons t ts ih =>
    intro i hi
    cases i with
    | zero => simp [newSlots, init_default]
    | succ i =>
      simp only [newSlots, List.getElem?_cons_succ]
      rw [ih ((init_default t h).2) i (by simpa using hi)]
      simp only [init_default, Heap.alloc_next, Option.some.injEq]
      omega

/-- Claim C1: dropping a record instance (`impl Drop for ExtObj`) invokes each
slot's registered destructor exactly once per slot: the trace of destructor
invocations lists exactly the instance's slot addresses (each once, in slot
order) and exactly the registry's destructors (in registration order), and its
`i`-th event applies the `i`-th registered destructor to the `i`-th slot
address. -/
theorem drop_invokes_each_destructor_once (slots : List Nat) (defs : Defs) (h : Heap)
    (hlen : slots.length = defs.length) :
    ((dropExtObj slots defs h).1.map Prod.snd = slots) ∧
    ((dropExtObj slots defs h).1.map Prod.fst = defs) ∧
    (∀ (i a : Nat) (t : Ty), slots[i]? = some a → defs[i]? = some t →
      (dropExtObj slots defs h).1[i]? = some (t, a)) := by
  induction slots generalizing defs h with
  | nil =>
    cases defs with
    | nil => simp [dropExtObj]
    | cons t ts => simp at hlen
  | cons a rest ih =>
    cases defs with
    | nil => simp at hlen
    | cons t ts =>
      have hlen' : rest.length = ts.length := by simpa using hlen
      obtain ⟨h1, h2, h3⟩ := ih ts (dropper t a h) hlen'
      refine ⟨?_, ?_, ?_⟩
      · simp only [dropExtObj, List.map_cons, h1]
      · simp only [dropExtObj, List.map_cons, h2]
      · intro i x ty hs hd
        cases i with
        | zero =>
          simp only [List.getElem?_cons_zero, Option.some.injEq] at hs hd
          subst hs; subst hd
          simp [dropExtObj]
        | succ i =>
          simp only [List.getElem?_cons_succ] at hs hd
          simp only [dropExtObj, List.getElem?_cons_succ]
          exact h3 i x ty hs hd

theorem drop_invokes_each_destructor_once_witness :
    (dropExtObj [7, 8] [⟨0, 0⟩, ⟨1, 0⟩] Heap.empty).1[0]? = some (⟨0, 0⟩, 7) :=
  (drop_invokes_each_destructor_once [7, 8] [⟨0, 0⟩, ⟨1, 0⟩] Heap.empty
    (by decide)).2.2 0 7 ⟨0, 0⟩ (by decide) (by decide)

/-- Claim C2: `ExtObj::new` invokes every registered default-constructor in
slot order (the invocation trace equals the registry), collects the resulting
addresses into the slot vector in the same order (the `i`-th slot holds the
`i`-th fresh allocation), and reading any slot of the fresh instance through
`ExtObj::get` yields that slot's type-specific default value. -/
theorem new_runs_ctors_in_order_and_reads_defaults (defs : Defs) (h : Heap) :
    ((newSlots defs h).2.2 = defs) ∧
    (((newSlots defs h).1).length = defs.length) ∧
    (∀ i : Nat, i < defs.length → (newSlots defs h).1[i]? = some (h.next + i)) ∧
    (∀ (i a : Nat) (d : Ty), (newSlots defs h).1[i]? = some a → defs[i]? = some d →
      ExtObj.get (newSlots defs h).2.1 (newSlots defs h).1 ⟨i, d⟩ = some d.defaultVal) := by
  refine ⟨newSlots_trace defs h, newSlots_length defs h, newSlots_slot_addr defs h, ?_⟩
  intro i a d hs hd
  simp only [ExtObj.get, hs, Option.some_bind]
  exact newSlots_read_at defs h i a d hs hd

theorem new_runs_ctors_in_order_and_reads_defaults_witness :
    ExtObj.get (newSlots [⟨0, 0⟩, ⟨1, 0⟩] Heap.empty).2.1
      (newSlots [⟨0, 0⟩, ⟨1, 0⟩] Heap.empty).1 ⟨0, ⟨0, 0⟩⟩ = some 0 :=
  (new_runs_ctors_in_order_and_reads_defaults [⟨0, 0⟩, ⟨1, 0⟩] Heap.empty).2.2.2
    0 0 ⟨0, 0⟩ (by decide) (by decide)

/-- Claim C5: `Var::__new` appends the constructor/destructor entry to the
registry and returns a handle whose index is the registry's length immediately
before the append; under any sequence of later registrations the registry only
grows, and an entry once appended is never removed or reordered (it stays at
its index). -/
theorem register_appends_and_index_is_old_length (defs : Defs) (t : Ty) :
    ((Var.__new defs t).2.index = defs.length) ∧
    ((Var.__new defs t).1 = defs ++ [t]) ∧
    ((Var.__new defs t).1.length = defs.length + 1) ∧
    (∀ ts : List Ty, defs.length ≤ (registerAll defs ts).length) ∧
    (∀ (ts : List Ty) (i : Nat) (d : Ty), defs[i]? = some d →
      (registerAll defs ts)[i]? = some d) := by
  refine ⟨rfl, rfl, by simp [Var.__new], registerAll_length_le defs, ?_⟩
  intro ts i d hd
  exact registerAll_getElem? defs ts i d hd

theorem register_appends_and_index_is_old_length_witness :
    (registerAll [⟨0, 0⟩] [⟨1, 1⟩, ⟨2, 2⟩])[0]? = some ⟨0, 0⟩ :=
  (register_appends_and_index_is_old_length [⟨0, 0⟩] ⟨9, 9⟩).2.2.2.2
    [⟨1, 1⟩, ⟨2, 2⟩] 0 ⟨0, 0⟩ (by decide)

/-- Claim C8: writing through a field handle whose index is within the
instance's slot count and then reading through the same handle on the same
instance returns the last written value. -/
theorem write_then_read_same_handle (h : Heap) (slots : List Nat) (v : Var) (x : Nat)
    (hv : v.index < slots.length) :
    ExtObj.get (ExtObj.set h slots v x) slots v = some x := by
  cases hsl : slots[v.index]? with
  | none =>
    have := List.getElem?_eq_none_iff.mp hsl
    omega
  | some a =>
    simp [ExtObj.get, ExtObj.set, hsl]

theorem write_then_read_same_handle_witness :
    ExtObj.get (ExtObj.set Heap.empty [3] ⟨0, ⟨0, 0⟩⟩ 42) [3] ⟨0, ⟨0, 0⟩⟩ = some 42 :=
  write_then_read_same_handle Heap.empty [3] ⟨0, ⟨0, 0⟩⟩ 42 (by decide)

/-- Claim C9: for an instance of one schema and an instance of a different
schema (each constructed from its own registry, in sequence), writing any
value through any field handle on the one instance leaves every read through
any field handle on the other instance unchanged. -/
theorem distinct_schemas_do_not_interfere (defsA defsB : Defs) (h0 : Heap)
    (varA varB : Var) (x : Nat) :
    ExtObj.get
      (ExtObj.set (newSlots defsA (newSlots defsB h0).2.1).2.1
        (newSlots defsA (newSlots defsB h0).2.1).1 varA x)
      (newSlots defsB h0).1 varB
    = ExtObj.get (newSlots defsA (newSlots defsB h0).2.1).2.1
        (newSlots defsB h0).1 varB := by
  unfold ExtObj.set
  cases hA : (newSlots defsA (newSlots defsB h0).2.1).1[varA.index]? with
  | none => rfl
  | some a =>
    have haA : a ∈ (newSlots defsA (newSlots defsB h0).2.1).1 :=
      List.getElem?_mem hA
    have hra := newSlots_slot_range defsA (newSlots defsB h0).2.1 a haA
    have hnext1 : ((newSlots defsB h0).2.1).next = h0.next + defsB.length :=
      newSlots_next defsB h0
    unfold ExtObj.get
    cases hB : (newSlots defsB h0).1[varB.index]? with
    | none => rfl
    | some b =>
      have hbB : b ∈ (newSlots defsB h0).1 := List.getElem?_mem hB
      have hrb := newSlots_slot_range defsB h0 b hbB
      simp only [Option.some_bind]
      exact Heap.read_write_ne _ a b x (by omega)

/-- Claim C4: creating an erased cell from `v` and converting it back into an
owned value returns a value equal to `v`, disarms the cell's own destructor,
and the destructor does not run a second time: the implicit `Drop` of the
consumed cell frees nothing and leaves the heap unchanged. -/
theorem create_then_into_value_round_trip (v : Nat) (h : Heap) :
    (((ObjInner.new v h).1.into_inner_unchecked (ObjInner.new v h).2).1 = some v) ∧
    (((ObjInner.new v h).1.into_inner_unchecked (ObjInner.new v h).2).2.1.armed = false) ∧
    ((((ObjInner.new v h).1.into_inner_unchecked (ObjInner.new v h).2).2.1.dropIt
        ((ObjInner.new v h).1.into_inner_unchecked (ObjInner.new v h).2).2.2).1 = []) ∧
    ((((ObjInner.new v h).1.into_inner_unchecked (ObjInner.new v h).2).2.1.dropIt
        ((ObjInner.new v h).1.into_inner_unchecked (ObjInner.new v h).2).2.2).2
      = ((ObjInner.new v h).1.into_inner_unchecked (ObjInner.new v h).2).2.2) := by
  refine ⟨?_, rfl, rfl, rfl⟩
  simp [ObjInner.new, ObjInner.into_inner_unchecked]

/-- Claim C10: for a checked erased cell created with tag `t` and value `v`:
`try_get` and `try_get_mut` return the stored value for query tag `t` and
`none` for any other tag; `try_into_inner` returns the owned value for tag `t`
(releasing the allocation), and for any other tag returns the original cell as
the error with the heap untouched and the cell's destructor still armed. -/
theorem checked_cell_guards_by_type_tag (t u v : Nat) (h : Heap) :
    (Obj.try_get t (Obj.new t v h).1 (Obj.new t v h).2 = some v) ∧
    (Obj.try_get_mut t (Obj.new t v h).1 (Obj.new t v h).2 = some v) ∧
    (u ≠ t → Obj.try_get u (Obj.new t v h).1 (Obj.new t v h).2 = none) ∧
    (u ≠ t → Obj.try_get_mut u (Obj.new t v h).1 (Obj.new t v h).2 = none) ∧
    (Obj.try_into_inner t (Obj.new t v h).1 (Obj.new t v h).2
      = (Except.ok (some v), ((Obj.new t v h).2).free (Obj.new t v h).1.inner.ptr)) ∧
    (u ≠ t → Obj.try_into_inner u (Obj.new t v h).1 (Obj.new t v h).2
      = (Except.error (Obj.new t v h).1, (Obj.new t v h).2)) ∧
    ((Obj.new t v h).1.inner.armed = true) := by
  refine ⟨?_, ?_, ?_, ?_, ?_, ?_, rfl⟩
  · simp [Obj.new, Obj.try_get, ObjInner.new, ObjInner.get_unchecked]
  · simp [Obj.new, Obj.try_get_mut, ObjInner.new, ObjInner.get_unchecked_mut]
  · intro hne; simp [Obj.new, Obj.try_get, ObjInner.new, hne]
  · intro hne; simp [Obj.new, Obj.try_get_mut, ObjInner.new, hne]
  · simp [Obj.new, Obj.try_into_inner, ObjInner.new,
      ObjInner.into_inner_unchecked]
  · intro hne; simp [Obj.new, Obj.try_into_inner, ObjInner.new, hne]

theorem checked_cell_guards_by_type_tag_witness :
    Obj.try_get 1 (Obj.new 0 7 Heap.empty).1 (Obj.new 0 7 Heap.empty).2 = none :=
  (checked_cell_guards_by_type_tag 0 1 7 Heap.empty).2.2.1 (by decide)

/-- Claim C3: `TyStore::insert` with no entry of type `T` present stores the
value, returns it with flag `true` and drops nothing; with an entry present it
leaves the store and the heap untouched, returns the existing entry with flag
`false`, and drops the newly supplied value. -/
theorem insert_keeps_existing_or_stores_new (s : TyStore) (h : Heap) (t v : Nat) :
    (s.store t = none →
      ((TyStore.insert t v s h).1 = (some v, true)) ∧
      ((TyStore.insert t v s h).2.2.2 = []) ∧
      (TyStore.get t (TyStore.insert t v s h).2.1 (TyStore.insert t v s h).2.2.1
        = some v)) ∧
    (∀ o : ObjInner, s.store t = some o →
      ((TyStore.insert t v s h).1 = (h.read o.ptr, false)) ∧
      ((TyStore.insert t v s h).2.1 = s) ∧
      ((TyStore.insert t v s h).2.2.1 = h) ∧
      ((TyStore.insert t v s h).2.2.2 = [v])) := by
  constructor
  · intro hnone
    refine ⟨?_, ?_, ?_⟩ <;>
      simp [TyStore.insert, hnone, ObjInner.new, ObjInner.get_unchecked_mut,
        TyStore.get, TyStore.update, ObjInner.get_unchecked]
  · intro o ho
    refine ⟨?_, ?_, ?_, ?_⟩ <;>
      simp [TyStore.insert, ho, ObjInner.get_unchecked_mut]

theorem insert_keeps_existing_or_stores_new_witness :
    (TyStore.insert 0 7 TyStore.new Heap.empty).1 = (some 7, true) :=
  ((insert_keeps_existing_or_stores_new TyStore.new Heap.empty 0 7).1 rfl).1

/-- Claim C6: `TyStore::get_mut_or_init` returns the existing entry of type
`T` without invoking the initializer at all when one exists (store and heap
unchanged, zero invocations); otherwise it invokes the initializer exactly
once, stores the produced value, and returns it. -/
theorem get_or_init_uses_existing_or_calls_make_once (s : TyStore) (h : Heap)
    (t : Nat) (mk : Unit → Nat) :
    (∀ o : ObjInner, s.store t = some o →
      TyStore.get_mut_or_init t mk s h = (h.read o.ptr, s, h, 0)) ∧
    (s.store t = none →
      ((TyStore.get_mut_or_init t mk s h).1 = some (mk ())) ∧
      ((TyStore.get_mut_or_init t mk s h).2.2.2 = 1) ∧
      (TyStore.get t (TyStore.get_mut_or_init t mk s h).2.1
        (TyStore.get_mut_or_init t mk s h).2.2.1 = some (mk ()))) := by
  constructor
  · intro o ho
    simp [TyStore.get_mut_or_init, ho, ObjInner.get_unchecked_mut]
  · intro hnone
    refine ⟨?_, ?_, ?_⟩ <;>
      simp [TyStore.get_mut_or_init, hnone, ObjInner.new,
        ObjInner.get_unchecked_mut, TyStore.get, TyStore.update,
        ObjInner.get_unchecked]

theorem get_or_init_uses_existing_or_calls_make_once_witness :
    TyStore.get_mut_or_init 0 (fun _ => 9) (TyStore.new.update 0 (some ⟨true, 5⟩))
      Heap.empty
      = (Heap.empty.read 5, TyStore.new.update 0 (some ⟨true, 5⟩), Heap.empty, 0) :=
  (get_or_init_uses_existing_or_calls_make_once (TyStore.new.update 0 (some ⟨true, 5⟩))
    Heap.empty 0 (fun _ => 9)).1 ⟨true, 5⟩ rfl

/-- Claim C7: `TyStore::take` followed by `TyStore::get` for the same type
returns `none` in every store state; when an entry is present, `take` removes
it from the store and returns ownership of its value; when absent, take is a
no-op returning `none`. -/
theorem take_then_get_returns_none (s : TyStore) (h : Heap) (t : Nat) :
    (TyStore.get t (TyStore.take t s h).2.1 (TyStore.take t s h).2.2 = none) ∧
    (∀ o : ObjInner, s.store t = some o →
      ((TyStore.take t s h).1 = h.read o.ptr) ∧
      ((TyStore.take t s h).2.1.store t = none)) ∧
    (s.store t = none → TyStore.take t s h = (none, s, h)) := by
  refine ⟨?_, ?_, ?_⟩
  · cases hst : s.store t with
    | none => simp [TyStore.take, hst, TyStore.get]
    | some o => simp [TyStore.take, hst, TyStore.get, TyStore.update]
  · intro o ho
    constructor
    · simp [TyStore.take, ho, ObjInner.into_inner_unchecked]
    · simp [TyStore.take, ho, TyStore.update]
  · intro hnone
    simp [TyStore.take, hnone]

theorem take_then_get_returns_none_witness :
    TyStore.take 0 TyStore.new Heap.empty = (none, TyStore.new, Heap.empty) :=
  (take_then_get_returns_none TyStore.new Heap.empty 0).2.2 rfl

end Extobj
